import Mathlib

/-!
Verification development for the openwork logging core
(`src/apps/desktop/src/main/utils/logger.ts`) and the companion process
tracker (`ProcessTracker`).  The TypeScript source is shallowly embedded:
mutable `Logger` fields become a `LoggerState` record, each method becomes a
pure function returning the updated state together with the list of external
effects it performed (console calls, file appends, rotation size checks),
and the filesystem touched by the rotation algorithm becomes an explicit
map from log-file names to optional contents.
-/

namespace Openwork

/-- The `LogLevel` enum: DEBUG(0), INFO(1), WARN(2), ERROR(3). -/
inductive LogLevel where
  | DEBUG
  | INFO
  | WARN
  | ERROR
deriving DecidableEq, Repr

/-- Numeric value of a level, as assigned by the TypeScript enum. -/
def LogLevel.toNat : LogLevel → Nat
  | .DEBUG => 0
  | .INFO => 1
  | .WARN => 2
  | .ERROR => 3

/-- The `LOG_LEVEL_NAMES` record used for output formatting. -/
def levelName : LogLevel → String
  | .DEBUG => "DEBUG"
  | .INFO => "INFO"
  | .WARN => "WARN"
  | .ERROR => "ERROR"

/-- Console channels: `console.debug` / `console.log` / `console.warn` /
`console.error`, as selected by `Logger.consoleLog`. -/
inductive Channel where
  | cdebug
  | clog
  | cwarn
  | cerror
deriving DecidableEq, Repr

/-- The channel chosen by the `switch` in `Logger.consoleLog`. -/
def channelOf : LogLevel → Channel
  | .DEBUG => .cdebug
  | .INFO => .clog
  | .WARN => .cwarn
  | .ERROR => .cerror

/-- A JavaScript `Error` value, reduced to the three fields the logger
reads (`name`, `message`, `stack`). -/
structure JsError where
  name : String
  message : String
  stack : String
deriving DecidableEq, Repr

/-- A structured context value (`Record<string, unknown>` in the source).
Objects are encoded as cons-chains `vobjCons key value rest` ending in
`vobjNil`, which keeps decidable equality derivable. -/
inductive CtxVal where
  | vstr (s : String)
  | vnum (n : Int)
  | vobjNil
  | vobjCons (key : String) (val : CtxVal) (rest : CtxVal)
deriving DecidableEq, Repr

/-- External effects a logger operation can perform.  `console` is a call on
one of the four console channels carrying the prefixed line and the raw
context object; `consoleError` is the internal `console.error(msg, err)`
used by catch blocks; `append` is `fs.appendFileSync(path, content)`;
`rotationCheck` marks a call of `rotateIfNeeded` from `writeToFile`. -/
inductive Effect where
  | console (ch : Channel) (line : String) (ctx : Option CtxVal)
  | consoleError (msg : String) (err : JsError)
  | append (path : String) (content : String)
  | rotationCheck
deriving DecidableEq, Repr

/-- The fully resolved logger options (`Required<LoggerOptions>`). -/
structure LoggerOptions where
  level : LogLevel
  fileLogging : Bool
  maxFileSize : Nat
  maxBackups : Nat
  deferInit : Bool
  rotationCheckInterval : Nat
  bufferSize : Nat
deriving DecidableEq, Repr

/-- The `DEFAULT_OPTIONS` record from the source. -/
def DEFAULT_OPTIONS : LoggerOptions :=
  { level := .INFO
    fileLogging := false
    maxFileSize := 10 * 1024 * 1024
    maxBackups := 5
    deferInit := false
    rotationCheckInterval := 100
    bufferSize := 0 }

/-- A caller-supplied `LoggerOptions` overlay: absent fields fall back to
the defaults via `overlayOptions` (the `{...DEFAULT_OPTIONS, ...options}`
spread in the constructor). -/
structure LoggerOverlay where
  level : Option LogLevel := none
  fileLogging : Option Bool := none
  maxFileSize : Option Nat := none
  maxBackups : Option Nat := none
  deferInit : Option Bool := none
  rotationCheckInterval : Option Nat := none
  bufferSize : Option Nat := none
deriving DecidableEq, Repr

/-- The option merge performed by the constructor. -/
def overlayOptions (ov : LoggerOverlay) : LoggerOptions :=
  { level := ov.level.getD DEFAULT_OPTIONS.level
    fileLogging := ov.fileLogging.getD DEFAULT_OPTIONS.fileLogging
    maxFileSize := ov.maxFileSize.getD DEFAULT_OPTIONS.maxFileSize
    maxBackups := ov.maxBackups.getD DEFAULT_OPTIONS.maxBackups
    deferInit := ov.deferInit.getD DEFAULT_OPTIONS.deferInit
    rotationCheckInterval :=
      ov.rotationCheckInterval.getD DEFAULT_OPTIONS.rotationCheckInterval
    bufferSize := ov.bufferSize.getD DEFAULT_OPTIONS.bufferSize }

/-- The mutable fields of a `Logger` instance. -/
structure LoggerState where
  moduleName : String
  opts : LoggerOptions
  logFilePath : Option String
  logsDir : Option String
  fileLoggingInitialized : Bool
  logWriteCount : Nat
  logBuffer : List String
deriving DecidableEq, Repr

/-- The platform path-resolution service (`app.getPath('userData')`):
either yields the base directory or throws a `JsError`. -/
def PathService : Type := Except JsError String

/-- Method `Logger.initFileLogging`: resolves the logs directory and file path; on
failure it reports to `console.error` and flips `fileLogging` off, leaving
`fileLoggingInitialized` unset.  Directory creation is modelled as always
succeeding once the base path resolves. -/
def initFileLogging (env : PathService) (s : LoggerState) :
    LoggerState × List Effect :=
  if s.fileLoggingInitialized then (s, [])
  else
    match env with
    | .ok base =>
        let dir := base ++ "/logs"
        ({ s with
            logsDir := some dir
            logFilePath := some (dir ++ "/app.log")
            fileLoggingInitialized := true }, [])
    | .error e =>
        ({ s with opts := { s.opts with fileLogging := false } },
         [.consoleError "[Logger] Failed to initialize file logging:" e])

/-- Method `Logger.ensureFileLoggingInitialized`. -/
def ensureFileLoggingInitialized (env : PathService) (s : LoggerState) :
    LoggerState × List Effect :=
  if s.opts.fileLogging ∧ ¬s.fileLoggingInitialized then
    initFileLogging env s
  else (s, [])

/-- The `Logger` constructor: merge options, then initialize file logging
immediately unless deferred. -/
def mkLogger (env : PathService) (moduleName : String) (ov : LoggerOverlay) :
    LoggerState × List Effect :=
  let opts := overlayOptions ov
  let s : LoggerState :=
    { moduleName := moduleName
      opts := opts
      logFilePath := none
      logsDir := none
      fileLoggingInitialized := false
      logWriteCount := 0
      logBuffer := [] }
  if opts.fileLogging ∧ ¬opts.deferInit then initFileLogging env s
  else (s, [])

/-- Method `Logger.writeToFile`: bump the write counter, run a rotation check when
it reaches `rotationCheckInterval` (resetting the counter), then append. -/
def writeToFile (content : String) (s : LoggerState) :
    LoggerState × List Effect :=
  match s.logFilePath, s.logsDir with
  | some p, some _ =>
      let c := s.logWriteCount + 1
      if s.opts.rotationCheckInterval ≤ c then
        ({ s with logWriteCount := 0 }, [.rotationCheck, .append p content])
      else
        ({ s with logWriteCount := c }, [.append p content])
  | _, _ => (s, [])

/-- Method `Logger.flushBuffer`: no-op on an empty buffer, otherwise join all
entries into one write and clear the buffer first. -/
def flushBuffer (s : LoggerState) : LoggerState × List Effect :=
  if s.logBuffer.isEmpty then (s, [])
  else writeToFile (String.join s.logBuffer) { s with logBuffer := [] }

/-- The public `Logger.flush`. -/
def flush (s : LoggerState) : LoggerState × List Effect :=
  flushBuffer s

/-- The log-line prefix `[timestamp] [LEVEL] [module]`. -/
def pfxOf (ts : String) (lvl : LogLevel) (moduleName : String) : String :=
  "[" ++ ts ++ "] [" ++ levelName lvl ++ "] [" ++ moduleName ++ "]"

/-- The serialized-context suffix appended to a file log entry. -/
def ctxSuffix (ser : CtxVal → String) : Option CtxVal → String
  | none => ""
  | some c => " " ++ ser c

/-- A complete formatted file log entry (prefix, message, optional
serialized context, newline). -/
def fmtEntry (ser : CtxVal → String) (moduleName ts : String)
    (lvl : LogLevel) (msg : String) (ctx : Option CtxVal) : String :=
  pfxOf ts lvl moduleName ++ " " ++ msg ++ ctxSuffix ser ctx ++ "\n"

/-- Method `Logger.fileLog`: format the entry, then either buffer it (flushing
when the buffer reaches `bufferSize`) or write it immediately.  `ser` is
the context serializer (`safeStringify` in the source, modelled separately
below). -/
def fileLog (ser : CtxVal → String) (pfx msg : String) (ctx : Option CtxVal)
    (s : LoggerState) : LoggerState × List Effect :=
  match s.logFilePath, s.logsDir with
  | some _, some _ =>
      let entry := pfx ++ " " ++ msg ++ ctxSuffix ser ctx ++ "\n"
      if 0 < s.opts.bufferSize then
        let s1 := { s with logBuffer := s.logBuffer ++ [entry] }
        if s.opts.bufferSize ≤ s1.logBuffer.length then flushBuffer s1
        else (s1, [])
      else writeToFile entry s
  | _, _ => (s, [])

/-- The core `Logger.log`: level filter, console output, then (when file
logging is on) deferred-initialization and the file-output path. -/
def log (ser : CtxVal → String) (env : PathService) (ts : String)
    (lvl : LogLevel) (msg : String) (ctx : Option CtxVal) (s : LoggerState) :
    LoggerState × List Effect :=
  if lvl.toNat < s.opts.level.toNat then (s, [])
  else
    let pfx := pfxOf ts lvl s.moduleName
    let ce := Effect.console (channelOf lvl) (pfx ++ " " ++ msg) ctx
    if s.opts.fileLogging then
      let r1 := ensureFileLoggingInitialized env s
      if r1.1.logFilePath.isSome then
        let r2 := fileLog ser pfx msg ctx r1.1
        (r2.1, ce :: (r1.2 ++ r2.2))
      else (r1.1, ce :: r1.2)
    else (s, [ce])

/-- Method `Logger.debug`. -/
def debug (ser : CtxVal → String) (env : PathService) (ts msg : String)
    (ctx : Option CtxVal) (s : LoggerState) : LoggerState × List Effect :=
  log ser env ts .DEBUG msg ctx s

/-- Method `Logger.info`. -/
def info (ser : CtxVal → String) (env : PathService) (ts msg : String)
    (ctx : Option CtxVal) (s : LoggerState) : LoggerState × List Effect :=
  log ser env ts .INFO msg ctx s

/-- Method `Logger.warn`. -/
def warn (ser : CtxVal → String) (env : PathService) (ts msg : String)
    (ctx : Option CtxVal) (s : LoggerState) : LoggerState × List Effect :=
  log ser env ts .WARN msg ctx s

/-- The normalized context built by `Logger.error` when handed a native
error value: `{ error: { name, message, stack } }`. -/
def mkErrorContext (e : JsError) : CtxVal :=
  .vobjCons "error"
    (.vobjCons "name" (.vstr e.name)
      (.vobjCons "message" (.vstr e.message)
        (.vobjCons "stack" (.vstr e.stack) .vobjNil)))
    .vobjNil

/-- Method `Logger.error`: its second argument is either absent, a native error
value (`Sum.inl`), or a structured context object (`Sum.inr`). -/
def error (ser : CtxVal → String) (env : PathService) (ts msg : String)
    (arg : Option (JsError ⊕ CtxVal)) (s : LoggerState) :
    LoggerState × List Effect :=
  let ctx : Option CtxVal :=
    match arg with
    | some (Sum.inl e) => some (mkErrorContext e)
    | some (Sum.inr c) => some c
    | none => none
  log ser env ts .ERROR msg ctx s

/-- A sequence of `log` calls at a fixed level, accumulating effects. -/
def runLogs (ser : CtxVal → String) (env : PathService) (lvl : LogLevel)
    (calls : List (String × String × Option CtxVal)) (s : LoggerState) :
    LoggerState × List Effect :=
  match calls with
  | [] => (s, [])
  | (ts, msg, ctx) :: rest =>
      let r := log ser env ts lvl msg ctx s
      let r2 := runLogs ser env lvl rest r.1
      (r2.1, r.2 ++ r2.2)

/-- A sequence of `writeToFile` calls, accumulating effects. -/
def runWrites (contents : List String) (s : LoggerState) :
    LoggerState × List Effect :=
  match contents with
  | [] => (s, [])
  | c :: rest =>
      let r := writeToFile c s
      let r2 := runWrites rest r.1
      (r2.1, r.2 ++ r2.2)

/-- The `(path, content)` pairs of the `append` effects in a trace. -/
def appendsOf : List Effect → List (String × String)
  | [] => []
  | .append p c :: rest => (p, c) :: appendsOf rest
  | _ :: rest => appendsOf rest

/-- The number of rotation size checks in a trace. -/
def checksOf : List Effect → Nat
  | [] => 0
  | .rotationCheck :: rest => checksOf rest + 1
  | _ :: rest => checksOf rest

/-! ### `safeStringify`: cycle-tolerant serialization

`safeStringify` runs `JSON.stringify` with a replacer that keeps a `seen`
set of already-visited objects (emitting the literal `"[Circular]"` on a
repeat visit) and expands `Error` instances to `{name, message, stack}`.
To expose reference cycles, the object graph is embedded explicitly: a
value is a primitive or a reference into a heap of nodes (plain objects or
error objects), and the serializer follows references.  The replacer walks
one value or one field list per step; the `fuel` argument bounds the
recursion depth, and the termination theorem shows some fuel always
suffices, cycles included. -/

/-- A JSON-like value: primitives, or a reference to a heap node. -/
inductive JVal where
  | jnull
  | jbool (b : Bool)
  | jnum (n : Int)
  | jstr (s : String)
  | jref (a : Nat)
deriving DecidableEq, Repr

/-- A heap node: a plain object (ordered field list) or an `Error`
instance carrying `name`, `message` and `stack`. -/
inductive JNode where
  | jobj (fields : List (String × JVal))
  | jerr (name msg stack : String)

/-- Output tokens of the serializer.  Rendering them in order and
concatenating yields the produced string; `circular` stands for the
`"[Circular]"` placeholder and `errObj` for the expanded
`{name, message, stack}` replacement of an `Error` instance. -/
inductive JTok where
  | lit (s : String)
  | strTok (s : String)
  | keyTok (s : String)
  | circular
  | errObj (name msg stack : String)
deriving DecidableEq, Repr

/-- Heap lookup by address. -/
def lookupNode (a : Nat) : List (Nat × JNode) → Option JNode
  | [] => none
  | (b, n) :: rest => if a = b then some n else lookupNode a rest

/-- The addresses allocated in a heap. -/
def heapAddrs (h : List (Nat × JNode)) : Finset Nat :=
  (h.map Prod.fst).toFinset

/-- The number of heap addresses not yet in the `seen` set — the measure
that shrinks every time the serializer follows a fresh reference. -/
def unseenCount (h : List (Nat × JNode)) (seen : List Nat) : Nat :=
  (heapAddrs h \ seen.toFinset).card

/-- One serializer activation: either a value (`Sum.inl`) or a field list
(`Sum.inr`).  Mirrors the replacer of `safeStringify`: a reference already
in `seen` becomes the circular placeholder, a fresh reference is added to
`seen` and its node serialized — `Error` nodes expanding to
`{name, message, stack}` — and field lists are walked left to right,
threading the `seen` set.  Returns the token output and the final `seen`
set, or `none` when the depth budget `fuel` runs out. -/
def serStep (h : List (Nat × JNode)) :
    Nat → List Nat → JVal ⊕ List (String × JVal) →
    Option (List JTok × List Nat)
  | _, seen, .inl .jnull => some ([.lit "null"], seen)
  | _, seen, .inl (.jbool b) => some ([.lit (cond b "true" "false")], seen)
  | _, seen, .inl (.jnum n) => some ([.lit (toString n)], seen)
  | _, seen, .inl (.jstr s) => some ([.strTok s], seen)
  | fuel, seen, .inl (.jref a) =>
      if a ∈ seen then some ([.circular], seen)
      else
        match fuel with
        | 0 => none
        | g + 1 =>
            match lookupNode a h with
            | none => some ([.lit "null"], seen)
            | some (.jerr n m st) => some ([.errObj n m st], a :: seen)
            | some (.jobj fields) =>
                match serStep h g (a :: seen) (.inr fields) with
                | none => none
                | some (toks, seen2) =>
                    some (.lit "\x7b" :: (toks ++ [.lit "\x7d"]), seen2)
  | _, seen, .inr [] => some ([], seen)
  | fuel, seen, .inr ((k, v) :: rest) =>
      match fuel with
      | 0 => none
      | g + 1 =>
          match serStep h g seen (.inl v) with
          | none => none
          | some (tv, seen1) =>
              match serStep h g seen1 (.inr rest) with
              | none => none
              | some (tr, seen2) => some (.keyTok k :: (tv ++ tr), seen2)

/-- Rendering of one output token as text. -/
def renderTok : JTok → String
  | .lit s => s
  | .strTok s => "\"" ++ s ++ "\""
  | .keyTok s => "\"" ++ s ++ "\":"
  | .circular => "\"[Circular]\""
  | .errObj n m st =>
      "\x7bname:\"" ++ n ++ "\",message:\"" ++ m ++ "\",stack:\"" ++ st
        ++ "\"\x7d"

/-- The string produced by `safeStringify` for a given run, as the
concatenation of the rendered tokens. -/
def renderToks (toks : List JTok) : String :=
  String.join (toks.map renderTok)

/-- The heap node at `a` is an object one of whose fields refers back to
`a` itself — a self-referencing context object. -/
def hasSelfRef (h : List (Nat × JNode)) (a : Nat) : Prop :=
  ∃ fields k, lookupNode a h = some (.jobj fields) ∧ (k, JVal.jref a) ∈ fields

/-- A concrete heap: address 0 holds an object whose `self` field refers
back to address 0, address 1 holds an `Error` instance. -/
def exHeap : List (Nat × JNode) :=
  [(0, JNode.jobj [("self", JVal.jref 0)]),
   (1, JNode.jerr "Error" "boom" "trace")]

/-! ### Filesystem model for the rotation algorithm -/

/-- Names in the logs directory: the live `app.log` and the numbered
backups `app.log.<i>`. -/
inductive LogName where
  | live
  | bak (i : Nat)
deriving DecidableEq, Repr

/-- The logs directory as a map from file name to optional contents. -/
def FS : Type := LogName → Option String

/-- Primitive `fs.renameSync src dst` (pure move: `dst` receives the contents of
`src`, `src` disappears). -/
def fsRename (fs : FS) (src dst : LogName) : FS :=
  fun n => if n = dst then fs src else if n = src then none else fs n

/-- Primitive `fs.unlinkSync p`. -/
def fsUnlink (fs : FS) (p : LogName) : FS :=
  fun n => if n = p then none else fs n

/-- The backup-shift loop of `rotateIfNeeded`:
`for (let i = maxBackups - 1; i >= 1; i--)` — if backup `i` exists, delete
it when `i = maxBackups - 1`, otherwise rename it to `i + 1`.  The `k`
argument is the current loop index (the first call passes
`maxBackups - 1`). -/
def backupShift (mb : Nat) : Nat → FS → FS
  | 0, fs => fs
  | i + 1, fs =>
      let idx := i + 1
      let fs1 :=
        if (fs (.bak idx)).isSome then
          if idx = mb - 1 then fsUnlink fs (.bak idx)
          else fsRename fs (.bak idx) (.bak (idx + 1))
        else fs
      backupShift mb i fs1

/-- Method `Logger.rotateIfNeeded`: no-op when the live file is missing or below
`maxFileSize`; otherwise shift the backup chain and rename the live file to
backup index 1.  File size is the content length. -/
def rotateIfNeeded (opts : LoggerOptions) (fs : FS) : FS :=
  match fs .live with
  | none => fs
  | some c =>
      if c.length < opts.maxFileSize then fs
      else fsRename (backupShift opts.maxBackups (opts.maxBackups - 1) fs)
        .live (.bak 1)

/-- Options with a tiny rotation threshold and `maxBackups = 2`, for
concrete rotation runs. -/
def smallOpts : LoggerOptions :=
  { DEFAULT_OPTIONS with maxFileSize := 1, maxBackups := 2 }

/-- A logs directory with an oversized live file and backups 1 and 2. -/
def fsC1small : FS := fun n =>
  match n with
  | .live => some "x"
  | .bak 1 => some "a"
  | .bak 2 => some "b"
  | _ => none

/-- Options with a tiny rotation threshold and `maxBackups = 3`. -/
def smallOpts3 : LoggerOptions :=
  { DEFAULT_OPTIONS with maxFileSize := 1, maxBackups := 3 }

/-- A logs directory with an oversized live file and backups 1, 2, 3. -/
def fsC13 : FS := fun n =>
  match n with
  | .live => some "x"
  | .bak 1 => some "a"
  | .bak 2 => some "b"
  | .bak 3 => some "c"
  | _ => none

/-- A logs directory with an oversized live file, backup 1 only. -/
def fsNoTop : FS := fun n =>
  match n with
  | .live => some "x"
  | .bak 1 => some "a"
  | _ => none

/-! ### Process tracker (`src/unnamed/part_000`) -/

/-- Record `ProcessInfo`: pid, human-readable name, and start time (modelled as an
abstract tick supplied by the caller). -/
structure ProcessInfo where
  pid : Nat
  name : String
  startTime : Nat
deriving DecidableEq, Repr

/-- Signals accepted by the tracker. -/
inductive KillSignal where
  | SIGTERM
  | SIGKILL
  | SIGINT
deriving DecidableEq, Repr

/-- Outcome of a `process.kill` call: success, a "no such process" error
(`ESRCH`), or any other error. -/
inductive KillResult where
  | ok
  | esrch
  | failure (msg : String)
deriving DecidableEq, Repr

/-- Observable effects of tracker operations: a `process.kill(pid, sig)`
attempt, and the three console reports of its outcome (`Sent <sig> ...`,
`... already exited`, `Failed to kill ...`). -/
inductive TrackEffect where
  | killAttempt (pid : Nat) (sig : KillSignal)
  | killOk (pid : Nat)
  | benignExit (pid : Nat)
  | killError (pid : Nat)
deriving DecidableEq, Repr

/-- The tracker state: insertion-ordered map from pid to `ProcessInfo`
(JavaScript `Map` iteration order). -/
structure ProcessTracker where
  tracked : List (Nat × ProcessInfo)
deriving DecidableEq, Repr

/-- Assoc-list lookup by pid. -/
def lookupPid (pid : Nat) : List (Nat × ProcessInfo) → Option ProcessInfo
  | [] => none
  | (q, info) :: rest => if pid = q then some info else lookupPid pid rest

/-- Assoc-list removal by pid (`Map.delete`). -/
def erasePid (pid : Nat) : List (Nat × ProcessInfo) →
    List (Nat × ProcessInfo)
  | [] => []
  | (q, info) :: rest =>
      if pid = q then erasePid pid rest else (q, info) :: erasePid pid rest

/-- The console report emitted for one kill attempt, by outcome. -/
def killOutcomeEffect (pid : Nat) : KillResult → TrackEffect
  | .ok => .killOk pid
  | .esrch => .benignExit pid
  | .failure _ => .killError pid

/-- Method `ProcessTracker.killProcess`: untracked pids return `false` with no
attempt; tracked pids get one kill attempt whose error (of any kind) is
caught, then the pid is always untracked and `true` returned. -/
def killProcess (env : Nat → KillResult) (pid : Nat) (sig : KillSignal)
    (t : ProcessTracker) : Bool × ProcessTracker × List TrackEffect :=
  match lookupPid pid t.tracked with
  | none => (false, t, [])
  | some _ =>
      (true, ⟨erasePid pid t.tracked⟩,
       [.killAttempt pid sig, killOutcomeEffect pid (env pid)])

/-- The loop body of `killAllTrackedProcesses` over a copy of the
entries. -/
def killLoop (env : Nat → KillResult) (sig : KillSignal) :
    List (Nat × ProcessInfo) → List TrackEffect
  | [] => []
  | (pid, _) :: rest =>
      .killAttempt pid sig :: killOutcomeEffect pid (env pid) ::
        killLoop env sig rest

/-- Method `ProcessTracker.killAllTrackedProcesses`: early return when nothing is
tracked; otherwise attempt every entry (errors caught per entry) and clear
the map. -/
def killAllTrackedProcesses (env : Nat → KillResult) (sig : KillSignal)
    (t : ProcessTracker) : ProcessTracker × List TrackEffect :=
  if t.tracked.isEmpty then (t, [])
  else (⟨[]⟩, killLoop env sig t.tracked)

/-! ### Shared concrete values and dispatch helpers -/

/-- Dispatch from a severity to the corresponding leveled method
(`debug` / `info` / `warn` / `error`, the latter fed a structured
context). -/
def levelMethod (l : LogLevel) (ser : CtxVal → String) (env : PathService)
    (ts msg : String) (ctx : Option CtxVal) (s : LoggerState) :
    LoggerState × List Effect :=
  match l with
  | .DEBUG => debug ser env ts msg ctx s
  | .INFO => info ser env ts msg ctx s
  | .WARN => warn ser env ts msg ctx s
  | .ERROR => error ser env ts msg (ctx.map Sum.inr) s


/-- A trivial context serializer used in concrete witnesses. -/
def serNull : CtxVal → String := fun _ => ""


/-- A concrete error value. -/
def errBoom : JsError := { name := "Error", message := "boom", stack := "trace" }


/-- A logger state with no file logging configured. -/
def plainState : LoggerState :=
  { moduleName := "mod"
    opts := DEFAULT_OPTIONS
    logFilePath := none
    logsDir := none
    fileLoggingInitialized := false
    logWriteCount := 0
    logBuffer := [] }


/-- A successfully file-initialized logger state with the given options. -/
def readyState (opts : LoggerOptions) : LoggerState :=
  { moduleName := "mod"
    opts := opts
    logFilePath := some "/ud/logs/app.log"
    logsDir := some "/ud/logs"
    fileLoggingInitialized := true
    logWriteCount := 0
    logBuffer := [] }


/-- Modelled from the spec: the claim says the error value is normalized
into `{name, message, stack}` and that object itself is treated as the
context of the emitted entry. -/
def specErrorContext (e : JsError) : CtxVal :=
  .vobjCons "name" (.vstr e.name)
    (.vobjCons "message" (.vstr e.message)
      (.vobjCons "stack" (.vstr e.stack) .vobjNil))


/-- The formatted entry of one `(timestamp, message, context)` call. -/
def fmtOf (ser : CtxVal → String) (moduleName : String) (lvl : LogLevel)
    (c : String × String × Option CtxVal) : String :=
  fmtEntry ser moduleName c.1 lvl c.2.1 c.2.2


/-- File-logging options with a given buffer size, used in witnesses. -/
def optsBuf (n : Nat) : LoggerOptions :=
  { DEFAULT_OPTIONS with fileLogging := true, bufferSize := n }


/-- A ready logger with `bufferSize = 2` holding one buffered entry. -/
def oneBuffered : LoggerState :=
  { readyState (optsBuf 2) with logBuffer := ["e1"] }


/-! ### General lemmas -/

theorem appendsOf_append (a b : List Effect) :
    appendsOf (a ++ b) = appendsOf a ++ appendsOf b := by
  induction a with
  | nil => rfl
  | cons e rest ih => cases e <;> simp [appendsOf, ih]


theorem checksOf_append (a b : List Effect) :
    checksOf (a ++ b) = checksOf a + checksOf b := by
  induction a with
  | nil => simp [checksOf]
  | cons e rest ih =>
      cases e
      all_goals simp [checksOf, ih]
      all_goals omega


theorem LogLevel.toNat_le_three (l : LogLevel) : l.toNat ≤ 3 := by
  cases l <;> simp [LogLevel.toNat]

/-- With file logging disabled, `log` touches no state and never appends. -/
theorem log_of_fileLogging_false (ser : CtxVal → String) (env : PathService)
    (ts : String) (lvl : LogLevel) (msg : String) (ctx : Option CtxVal)
    (s : LoggerState) (h : s.opts.fileLogging = false) :
    (log ser env ts lvl msg ctx s).1 = s ∧
    appendsOf (log ser env ts lvl msg ctx s).2 = [] := by
  unfold log
  split
  · exact ⟨rfl, rfl⟩
  · simp [h, appendsOf]

/-! ### C5: severities below the configured level have no effect -/

/-- Claim C5: for severities S1 < S2 and a logger whose configured level is
S2, both the core `log` routine at S1 and the S1-level method leave the
state untouched and perform no effect at all (no console call, no file
write, no counter or buffer change). -/
theorem c5_below_level_silent (s1 s2 : LogLevel) (ser : CtxVal → String)
    (env : PathService) (ts msg : String) (ctx : Option CtxVal)
    (s : LoggerState) (hlt : s1.toNat < s2.toNat)
    (hlevel : s.opts.level = s2) :
    log ser env ts s1 msg ctx s = (s, []) ∧
    levelMethod s1 ser env ts msg ctx s = (s, []) := by
  have hguard : s1.toNat < s.opts.level.toNat := by rw [hlevel]; exact hlt
  have hlog : log ser env ts s1 msg ctx s = (s, []) := by
    unfold log
    simp [hguard]
  refine ⟨hlog, ?_⟩
  cases s1 with
  | DEBUG => exact hlog
  | INFO => exact hlog
  | WARN => exact hlog
  | ERROR =>
      exfalso
      have h3 := LogLevel.toNat_le_three s2
      have he : LogLevel.ERROR.toNat = 3 := rfl
      omega

/-- Witness for C5 at a concrete input: a DEBUG call on a WARN-level
logger is silent. -/
theorem c5_witness :
    log serNull (Except.ok "/ud") "t" .DEBUG "m" none
        (readyState { DEFAULT_OPTIONS with level := .WARN }) =
      (readyState { DEFAULT_OPTIONS with level := .WARN }, []) ∧
    levelMethod .DEBUG serNull (Except.ok "/ud") "t" "m" none
        (readyState { DEFAULT_OPTIONS with level := .WARN }) =
      (readyState { DEFAULT_OPTIONS with level := .WARN }, []) :=
  c5_below_level_silent .DEBUG .WARN serNull (Except.ok "/ud") "t" "m" none
    (readyState { DEFAULT_OPTIONS with level := .WARN }) (by decide) rfl

/-! ### C8: `error` with a native error value -/

/-- Counterexample to C8 as stated: the context actually emitted wraps the
normalized triple under an `error` key, and that wrapper differs from the
bare `{name, message, stack}` object the claim describes. -/
theorem c8_counterexample :
    (error serNull (Except.ok "/ud") "t" "m" (some (Sum.inl errBoom))
        plainState).2 =
      [Effect.console Channel.cerror "[t] [ERROR] [mod] m"
        (some (mkErrorContext errBoom))] ∧
    mkErrorContext errBoom ≠ specErrorContext errBoom := by
  exact ⟨by decide, by decide⟩

/-- Claim C8 (amended): `error` given a native error value normalizes it to
`{name, message, stack}`, wraps it under an `error` key, and passes
`{error: {name, message, stack}}` as the context of the emitted entry. -/
theorem c8_error_context_wrapped (ser : CtxVal → String) (env : PathService)
    (ts msg : String) (e : JsError) (s : LoggerState) :
    ((error ser env ts msg (some (Sum.inl e)) s).2).head? =
      some (Effect.console Channel.cerror
        (pfxOf ts .ERROR s.moduleName ++ " " ++ msg)
        (some (mkErrorContext e))) := by
  have hguard : ¬ (LogLevel.ERROR.toNat < s.opts.level.toNat) := by
    have h3 := LogLevel.toNat_le_three s.opts.level
    have he : LogLevel.ERROR.toNat = 3 := rfl
    omega
  unfold error log
  simp only [hguard, if_false]
  split
  · split
    · simp [channelOf]
    · simp [channelOf]
  · simp [channelOf]

/-! ### C6: deferred initialization while path resolution throws -/

/-- Claim C6: constructing a logger with `fileLogging` and `deferInit` while
path resolution throws succeeds silently; the first `info` call emits its
console line, reports the initialization failure with the error on the
console-error channel, appends nothing, and permanently flips file logging
off, so no later call (under any environment) ever appends either. -/
theorem c6_deferred_init_failure (ser : CtxVal → String) (e : JsError)
    (name ts msg : String) :
    (mkLogger (Except.error e) name
        { fileLogging := some true, deferInit := some true }).2 = [] ∧
    (info ser (Except.error e) ts msg none
        (mkLogger (Except.error e) name
          { fileLogging := some true, deferInit := some true }).1).2 =
      [Effect.console Channel.clog (pfxOf ts .INFO name ++ " " ++ msg)
        none,
       Effect.consoleError "[Logger] Failed to initialize file logging:" e] ∧
    appendsOf (info ser (Except.error e) ts msg none
        (mkLogger (Except.error e) name
          { fileLogging := some true, deferInit := some true }).1).2 = [] ∧
    ((info ser (Except.error e) ts msg none
        (mkLogger (Except.error e) name
          { fileLogging := some true, deferInit := some true }).1).1).opts.fileLogging
      = false ∧
    (∀ (ser2 : CtxVal → String) (env2 : PathService) (ts2 : String)
        (lvl2 : LogLevel) (msg2 : String) (ctx2 : Option CtxVal),
      appendsOf (log ser2 env2 ts2 lvl2 msg2 ctx2
        ((info ser (Except.error e) ts msg none
          (mkLogger (Except.error e) name
            { fileLogging := some true, deferInit := some true }).1).1)).2 = []) := by
  have hmk : (mkLogger (Except.error e) name
      { fileLogging := some true, deferInit := some true }) =
      ({ moduleName := name
         opts := { DEFAULT_OPTIONS with fileLogging := true, deferInit := true }
         logFilePath := none
         logsDir := none
         fileLoggingInitialized := false
         logWriteCount := 0
         logBuffer := [] }, []) := by
    simp [mkLogger, overlayOptions, DEFAULT_OPTIONS]
  rw [hmk]
  have hinfo : (info ser (Except.error e) ts msg none
      ({ moduleName := name
         opts := { DEFAULT_OPTIONS with fileLogging := true, deferInit := true }
         logFilePath := none
         logsDir := none
         fileLoggingInitialized := false
         logWriteCount := 0
         logBuffer := [] } : LoggerState)) =
      ({ moduleName := name
         opts := { DEFAULT_OPTIONS with fileLogging := false, deferInit := true }
         logFilePath := none
         logsDir := none
         fileLoggingInitialized := false
         logWriteCount := 0
         logBuffer := [] },
       [Effect.console Channel.clog (pfxOf ts .INFO name ++ " " ++ msg)
          none,
        Effect.consoleError "[Logger] Failed to initialize file logging:" e]) := by
    simp [info, log, LogLevel.toNat, DEFAULT_OPTIONS,
      ensureFileLoggingInitialized, initFileLogging, channelOf]
  rw [hinfo]
  refine ⟨rfl, rfl, rfl, rfl, ?_⟩
  intro ser2 env2 ts2 lvl2 msg2 ctx2
  exact (log_of_fileLogging_false ser2 env2 ts2 lvl2 msg2 ctx2 _ rfl).2

/-! ### C9 and C10: process tracker -/

/-- Claim C9: killing all tracked processes {A, B, C}, where killing B hits
a "no such process" error, still attempts the signal on A and on C, marks
B as benignly exited, and leaves zero tracked processes. -/
theorem c9_kill_all_attempts_every_pid (env : Nat → KillResult)
    (sig : KillSignal) (A B C : Nat) (iA iB iC : ProcessInfo)
    (hB : env B = KillResult.esrch) :
    TrackEffect.killAttempt A sig ∈
      (killAllTrackedProcesses env sig ⟨[(A, iA), (B, iB), (C, iC)]⟩).2 ∧
    TrackEffect.killAttempt B sig ∈
      (killAllTrackedProcesses env sig ⟨[(A, iA), (B, iB), (C, iC)]⟩).2 ∧
    TrackEffect.killAttempt C sig ∈
      (killAllTrackedProcesses env sig ⟨[(A, iA), (B, iB), (C, iC)]⟩).2 ∧
    TrackEffect.benignExit B ∈
      (killAllTrackedProcesses env sig ⟨[(A, iA), (B, iB), (C, iC)]⟩).2 ∧
    (killAllTrackedProcesses env sig
      ⟨[(A, iA), (B, iB), (C, iC)]⟩).1.tracked.length = 0 := by
  simp [killAllTrackedProcesses, killLoop, killOutcomeEffect, hB,
    List.isEmpty]

/-- Witness for C9 at a concrete input: pids 4, 5, 6 with pid 5 already
exited. -/
theorem c9_witness :
    TrackEffect.killAttempt 4 .SIGTERM ∈
      (killAllTrackedProcesses
        (fun p => if p = 5 then .esrch else .ok) .SIGTERM
        ⟨[(4, ⟨4, "a", 0⟩), (5, ⟨5, "b", 0⟩), (6, ⟨6, "c", 0⟩)]⟩).2 ∧
    TrackEffect.killAttempt 5 .SIGTERM ∈
      (killAllTrackedProcesses
        (fun p => if p = 5 then .esrch else .ok) .SIGTERM
        ⟨[(4, ⟨4, "a", 0⟩), (5, ⟨5, "b", 0⟩), (6, ⟨6, "c", 0⟩)]⟩).2 ∧
    TrackEffect.killAttempt 6 .SIGTERM ∈
      (killAllTrackedProcesses
        (fun p => if p = 5 then .esrch else .ok) .SIGTERM
        ⟨[(4, ⟨4, "a", 0⟩), (5, ⟨5, "b", 0⟩), (6, ⟨6, "c", 0⟩)]⟩).2 ∧
    TrackEffect.benignExit 5 ∈
      (killAllTrackedProcesses
        (fun p => if p = 5 then .esrch else .ok) .SIGTERM
        ⟨[(4, ⟨4, "a", 0⟩), (5, ⟨5, "b", 0⟩), (6, ⟨6, "c", 0⟩)]⟩).2 ∧
    (killAllTrackedProcesses
        (fun p => if p = 5 then .esrch else .ok) .SIGTERM
        ⟨[(4, ⟨4, "a", 0⟩), (5, ⟨5, "b", 0⟩), (6, ⟨6, "c", 0⟩)]⟩).1.tracked.length
      = 0 :=
  c9_kill_all_attempts_every_pid (fun p => if p = 5 then .esrch else .ok)
    .SIGTERM 4 5 6 ⟨4, "a", 0⟩ ⟨5, "b", 0⟩ ⟨6, "c", 0⟩ (by decide)

/-- Claim C10: `killProcess` on a tracked pid returns `true`, attempts the
signal once, and removes the pid regardless of the kill outcome (the
result does not depend on the environment beyond the logged outcome); on
an untracked pid it returns `false`, sends nothing, and leaves the tracker
unchanged. -/
theorem c10_killProcess_contract (env : Nat → KillResult) (pid : Nat)
    (sig : KillSignal) (t : ProcessTracker) :
    ((lookupPid pid t.tracked).isSome = true →
      killProcess env pid sig t =
        (true, ⟨erasePid pid t.tracked⟩,
         [.killAttempt pid sig, killOutcomeEffect pid (env pid)])) ∧
    ((lookupPid pid t.tracked).isSome = false →
      killProcess env pid sig t = (false, t, [])) := by
  constructor
  · intro h
    unfold killProcess
    cases hl : lookupPid pid t.tracked with
    | none => rw [hl] at h; simp at h
    | some info => rfl
  · intro h
    unfold killProcess
    cases hl : lookupPid pid t.tracked with
    | none => rfl
    | some info => rw [hl] at h; simp at h

/-- Witness for C10 at concrete inputs: pid 7 is tracked and its kill
throws a non-ESRCH error, yet it is removed and `true` returned; pid 9 is
untracked. -/
theorem c10_witness :
    killProcess (fun _ => .failure "EPERM") 7 .SIGTERM
        ⟨[(7, ⟨7, "x", 0⟩)]⟩ =
      (true, ⟨[]⟩, [.killAttempt 7 .SIGTERM, .killError 7]) ∧
    killProcess (fun _ => .failure "EPERM") 9 .SIGTERM
        ⟨[(7, ⟨7, "x", 0⟩)]⟩ =
      (false, ⟨[(7, ⟨7, "x", 0⟩)]⟩, []) := by
  constructor
  · have h := (c10_killProcess_contract (fun _ => .failure "EPERM") 7
      .SIGTERM ⟨[(7, ⟨7, "x", 0⟩)]⟩).1 (by decide)
    simpa [erasePid, killOutcomeEffect] using h
  · have h := (c10_killProcess_contract (fun _ => .failure "EPERM") 9
      .SIGTERM ⟨[(7, ⟨7, "x", 0⟩)]⟩).2 (by decide)
    exact h

/-! ### C4: rotation-check sampling -/

/-- Unfolding of `writeToFile` when the paths are resolved. -/
theorem writeToFile_ready (content : String) (s : LoggerState) (p d : String)
    (hp : s.logFilePath = some p) (hd : s.logsDir = some d) :
    writeToFile content s =
      (if s.opts.rotationCheckInterval ≤ s.logWriteCount + 1 then
        ({ s with logWriteCount := 0 },
         [.rotationCheck, .append p content])
      else
        ({ s with logWriteCount := s.logWriteCount + 1 },
         [.append p content])) := by
  unfold writeToFile
  rw [hp, hd]

/-- Counter characterization of a write sequence: starting below the check
interval, `n` writes perform `(count + n) / R` rotation checks and leave
the counter at `(count + n) % R`; configuration and resolved paths are
untouched. -/
theorem runWrites_spec (R : Nat) :
    ∀ (contents : List String) (s : LoggerState) (p d : String),
      s.logFilePath = some p → s.logsDir = some d →
      s.opts.rotationCheckInterval = R →
      s.logWriteCount < R →
      checksOf (runWrites contents s).2 =
        (s.logWriteCount + contents.length) / R ∧
      (runWrites contents s).1.logWriteCount =
        (s.logWriteCount + contents.length) % R ∧
      (runWrites contents s).1.logFilePath = some p ∧
      (runWrites contents s).1.logsDir = some d ∧
      (runWrites contents s).1.opts = s.opts ∧
      (runWrites contents s).1.logBuffer = s.logBuffer := by
  intro contents
  induction contents with
  | nil =>
      intro s p d hp hd hR hc
      refine ⟨?_, ?_, hp, hd, rfl, rfl⟩
      · simp [runWrites, checksOf, Nat.div_eq_of_lt hc]
      · simp [runWrites, Nat.mod_eq_of_lt hc]
  | cons c rest ih =>
      intro s p d hp hd hR hc
      have hR0 : 0 < R := by omega
      rw [runWrites]
      rw [writeToFile_ready c s p d hp hd]
      by_cases hfire : s.opts.rotationCheckInterval ≤ s.logWriteCount + 1
      · have hEq : s.logWriteCount + 1 = R := by omega
        rw [if_pos hfire]
        have ih2 := ih { s with logWriteCount := 0 } p d hp hd hR hR0
        have harith : s.logWriteCount + (rest.length + 1) =
            rest.length + R := by omega
        refine ⟨?_, ?_, ih2.2.2.1, ih2.2.2.2.1, ih2.2.2.2.2.1,
          ih2.2.2.2.2.2⟩
        · rw [checksOf_append, ih2.1]
          simp only [List.length_cons, Nat.zero_add]
          rw [harith, Nat.add_div_right _ hR0]
          have hcc : checksOf [Effect.rotationCheck, Effect.append p c]
              = 1 := rfl
          rw [hcc]
          exact Nat.add_comm 1 _
        · rw [ih2.2.1]
          simp only [List.length_cons, Nat.zero_add]
          rw [harith, Nat.add_mod_right]
      · rw [if_neg hfire]
        have hlt : s.logWriteCount + 1 < R := by omega
        have ih2 := ih { s with logWriteCount := s.logWriteCount + 1 } p d
          hp hd hR hlt
        have harith : s.logWriteCount + 1 + rest.length =
            s.logWriteCount + (rest.length + 1) := by omega
        refine ⟨?_, ?_, ih2.2.2.1, ih2.2.2.2.1, ih2.2.2.2.2.1,
          ih2.2.2.2.2.2⟩
        · rw [checksOf_append, ih2.1]
          simp only [List.length_cons]
          rw [harith]
          have hcc : checksOf [Effect.append p c] = 0 := rfl
          rw [hcc, Nat.zero_add]
        · rw [ih2.2.1]
          simp only [List.length_cons]
          rw [harith]

/-- Claim C4: with `rotationCheckInterval = R ≥ 1` and a fresh counter,
`n` disk writes perform `n / R` rotation checks — so fewer than `R` writes
perform none, exactly `R` perform one, and `k * R` perform `k` — and the
counter always equals `n % R` afterwards, i.e. it is reset to zero
immediately after every check. -/
theorem c4_rotation_check_interval (R : Nat) (contents : List String)
    (s : LoggerState) (p d : String)
    (hp : s.logFilePath = some p) (hd : s.logsDir = some d)
    (hR : s.opts.rotationCheckInterval = R) (h0 : s.logWriteCount = 0)
    (hR1 : 1 ≤ R) :
    checksOf (runWrites contents s).2 = contents.length / R ∧
    (runWrites contents s).1.logWriteCount = contents.length % R ∧
    (contents.length < R → checksOf (runWrites contents s).2 = 0) ∧
    (contents.length = R → checksOf (runWrites contents s).2 = 1) ∧
    (∀ k, contents.length = k * R →
      checksOf (runWrites contents s).2 = k) := by
  have h := runWrites_spec R contents s p d hp hd hR (by omega)
  rw [h0] at h
  simp only [Nat.zero_add] at h
  refine ⟨h.1, h.2.1, ?_, ?_, ?_⟩
  · intro hlt
    rw [h.1, Nat.div_eq_of_lt hlt]
  · intro heq
    rw [h.1, heq, Nat.div_self (by omega)]
  · intro k hk
    rw [h.1, hk, Nat.mul_div_cancel k (by omega)]

/-- Witness for C4 at a concrete input: interval 2, five writes, two
checks, counter left at 1. -/
theorem c4_witness :
    checksOf (runWrites ["a", "b", "c", "d", "e"]
      (readyState { DEFAULT_OPTIONS with rotationCheckInterval := 2 })).2
      = 5 / 2 ∧
    (runWrites ["a", "b", "c", "d", "e"]
      (readyState { DEFAULT_OPTIONS with
        rotationCheckInterval := 2 })).1.logWriteCount = 5 % 2 ∧
    (5 < 2 → checksOf (runWrites ["a", "b", "c", "d", "e"]
      (readyState { DEFAULT_OPTIONS with rotationCheckInterval := 2 })).2
        = 0) ∧
    (5 = 2 → checksOf (runWrites ["a", "b", "c", "d", "e"]
      (readyState { DEFAULT_OPTIONS with rotationCheckInterval := 2 })).2
        = 1) ∧
    (∀ k, 5 = k * 2 → checksOf (runWrites ["a", "b", "c", "d", "e"]
      (readyState { DEFAULT_OPTIONS with rotationCheckInterval := 2 })).2
        = k) :=
  c4_rotation_check_interval 2 ["a", "b", "c", "d", "e"]
    (readyState { DEFAULT_OPTIONS with rotationCheckInterval := 2 })
    "/ud/logs/app.log" "/ud/logs" rfl rfl rfl rfl (by decide)

/-! ### C3: write buffering -/

/-- Function `ensureFileLoggingInitialized` is a no-op once initialization has
completed. -/
theorem ensureInit_noop (env : PathService) (s : LoggerState)
    (hinit : s.fileLoggingInitialized = true) :
    ensureFileLoggingInitialized env s = (s, []) := by
  unfold ensureFileLoggingInitialized
  rw [hinit]
  simp

/-- A threshold-passing `log` call on an initialized, buffering logger that
does not yet fill the buffer: the entry is pushed and only the console
effect happens. -/
theorem log_buffered_push (ser : CtxVal → String) (env : PathService)
    (ts : String) (lvl : LogLevel) (msg : String) (ctx : Option CtxVal)
    (s : LoggerState) (p d : String)
    (hfl : s.opts.fileLogging = true)
    (hinit : s.fileLoggingInitialized = true)
    (hp : s.logFilePath = some p) (hd : s.logsDir = some d)
    (hlvl : s.opts.level.toNat ≤ lvl.toNat)
    (hlt : s.logBuffer.length + 1 < s.opts.bufferSize) :
    log ser env ts lvl msg ctx s =
      ({ s with logBuffer :=
          s.logBuffer ++ [fmtEntry ser s.moduleName ts lvl msg ctx] },
       [Effect.console (channelOf lvl)
          (pfxOf ts lvl s.moduleName ++ " " ++ msg) ctx]) := by
  unfold log
  rw [if_neg (by omega : ¬ lvl.toNat < s.opts.level.toNat)]
  rw [ensureInit_noop env s hinit]
  unfold fileLog
  simp only [hfl, hp, hd, if_true, Option.isSome_some, fmtEntry]
  rw [if_pos (by omega : 0 < s.opts.bufferSize)]
  simp only [List.length_append, List.length_cons, List.length_nil]
  rw [if_neg (by omega : ¬ s.opts.bufferSize ≤ s.logBuffer.length + (0 + 1))]
  rfl

/-- A threshold-passing `log` call on an initialized, buffering logger that
fills the buffer: the entry is pushed and the buffer flushed. -/
theorem log_buffered_flush (ser : CtxVal → String) (env : PathService)
    (ts : String) (lvl : LogLevel) (msg : String) (ctx : Option CtxVal)
    (s : LoggerState) (p d : String)
    (hfl : s.opts.fileLogging = true)
    (hinit : s.fileLoggingInitialized = true)
    (hp : s.logFilePath = some p) (hd : s.logsDir = some d)
    (hlvl : s.opts.level.toNat ≤ lvl.toNat)
    (hbuf : 0 < s.opts.bufferSize)
    (hge : s.opts.bufferSize ≤ s.logBuffer.length + 1) :
    log ser env ts lvl msg ctx s =
      ((flushBuffer { s with logBuffer :=
          s.logBuffer ++ [fmtEntry ser s.moduleName ts lvl msg ctx] }).1,
       Effect.console (channelOf lvl)
           (pfxOf ts lvl s.moduleName ++ " " ++ msg) ctx ::
         (flushBuffer { s with logBuffer :=
            s.logBuffer ++ [fmtEntry ser s.moduleName ts lvl msg ctx] }).2) := by
  unfold log
  rw [if_neg (by omega : ¬ lvl.toNat < s.opts.level.toNat)]
  rw [ensureInit_noop env s hinit]
  unfold fileLog
  simp only [hfl, hp, hd, if_true, Option.isSome_some, fmtEntry]
  rw [if_pos hbuf]
  simp only [List.length_append, List.length_cons, List.length_nil]
  rw [if_pos (by omega : s.opts.bufferSize ≤ s.logBuffer.length + (0 + 1))]
  simp [hp, hd]

/-- A threshold-passing `log` call on an initialized logger with buffering
disabled: the line goes straight to `writeToFile`. -/
theorem log_unbuffered (ser : CtxVal → String) (env : PathService)
    (ts : String) (lvl : LogLevel) (msg : String) (ctx : Option CtxVal)
    (s : LoggerState) (p d : String)
    (hfl : s.opts.fileLogging = true)
    (hinit : s.fileLoggingInitialized = true)
    (hp : s.logFilePath = some p) (hd : s.logsDir = some d)
    (hlvl : s.opts.level.toNat ≤ lvl.toNat)
    (hbuf : s.opts.bufferSize = 0) :
    log ser env ts lvl msg ctx s =
      ((writeToFile (fmtEntry ser s.moduleName ts lvl msg ctx) s).1,
       Effect.console (channelOf lvl)
           (pfxOf ts lvl s.moduleName ++ " " ++ msg) ctx ::
         (writeToFile (fmtEntry ser s.moduleName ts lvl msg ctx) s).2) := by
  unfold log
  rw [if_neg (by omega : ¬ lvl.toNat < s.opts.level.toNat)]
  rw [ensureInit_noop env s hinit]
  unfold fileLog
  simp only [hfl, hp, hd, if_true, Option.isSome_some, fmtEntry]
  rw [if_neg (by omega : ¬ 0 < s.opts.bufferSize)]
  simp

/-- Flushing a nonempty buffer on an initialized logger: exactly one
append carrying the joined entries, and the buffer comes back empty with
everything else preserved. -/
theorem flushBuffer_nonempty (s : LoggerState) (p d : String)
    (hp : s.logFilePath = some p) (hd : s.logsDir = some d)
    (hne : s.logBuffer ≠ []) :
    appendsOf (flushBuffer s).2 = [(p, String.join s.logBuffer)] ∧
    (flushBuffer s).1.logBuffer = [] ∧
    (flushBuffer s).1.opts = s.opts ∧
    (flushBuffer s).1.logFilePath = some p ∧
    (flushBuffer s).1.logsDir = some d ∧
    (flushBuffer s).1.moduleName = s.moduleName ∧
    (flushBuffer s).1.fileLoggingInitialized = s.fileLoggingInitialized := by
  unfold flushBuffer
  rw [if_neg (by simpa [List.isEmpty_iff] using hne)]
  rw [writeToFile_ready (String.join s.logBuffer)
    { s with logBuffer := [] } p d hp hd]
  split
  · exact ⟨rfl, rfl, rfl, hp, hd, rfl, rfl⟩
  · exact ⟨rfl, rfl, rfl, hp, hd, rfl, rfl⟩

/-- Buffered-run characterization: starting from an initialized buffering
logger whose buffer is not yet full, a run of threshold-passing calls that
keeps the total at or below `bufferSize` appends nothing while the total
stays strictly below, and performs exactly one append — the join of every
buffered line — the moment the total reaches `bufferSize`, emptying the
buffer. -/
theorem runLogs_buffered_spec (ser : CtxVal → String) (env : PathService)
    (lvl : LogLevel) (N : Nat) :
    ∀ (calls : List (String × String × Option CtxVal)) (s : LoggerState)
      (p d : String),
      s.opts.fileLogging = true → s.fileLoggingInitialized = true →
      s.logFilePath = some p → s.logsDir = some d →
      s.opts.level.toNat ≤ lvl.toNat →
      s.opts.bufferSize = N →
      s.logBuffer.length < N →
      s.logBuffer.length + calls.length ≤ N →
      ((s.logBuffer.length + calls.length < N →
          appendsOf (runLogs ser env lvl calls s).2 = [] ∧
          (runLogs ser env lvl calls s).1 =
            { s with logBuffer := s.logBuffer ++
                calls.map (fmtOf ser s.moduleName lvl) }) ∧
       (s.logBuffer.length + calls.length = N →
          appendsOf (runLogs ser env lvl calls s).2 =
            [(p, String.join (s.logBuffer ++
              calls.map (fmtOf ser s.moduleName lvl)))] ∧
          (runLogs ser env lvl calls s).1.logBuffer = [])) := by
  intro calls
  induction calls with
  | nil =>
      intro s p d hfl hinit hp hd hlvl hN hlt hle
      constructor
      · intro _
        refine ⟨rfl, ?_⟩
        simp [runLogs]
      · intro habs
        simp only [List.length_nil] at habs
        omega
  | cons c rest ih =>
      intro s p d hfl hinit hp hd hlvl hN hlt hle
      obtain ⟨ts, msg, ctx⟩ := c
      rw [runLogs]
      by_cases hfull : s.logBuffer.length + 1 < N
      · rw [log_buffered_push ser env ts lvl msg ctx s p d hfl hinit hp hd
          hlvl (by omega)]
        have ih2 := ih { s with logBuffer := s.logBuffer ++
            [fmtEntry ser s.moduleName ts lvl msg ctx] } p d hfl hinit hp hd
          hlvl hN (by simp; omega) (by simp; simp at hle; omega)
        constructor
        · intro hrun
          simp only [List.length_cons] at hrun
          have h1 := ih2.1 (by simp; omega)
          refine ⟨?_, ?_⟩
          · rw [appendsOf_append, h1.1]
            rfl
          · rw [h1.2]
            simp [fmtOf, List.map_cons]
        · intro hrun
          simp only [List.length_cons] at hrun
          have h2 := ih2.2 (by simp; omega)
          refine ⟨?_, h2.2⟩
          rw [appendsOf_append, h2.1]
          simp [appendsOf, fmtOf, List.map_cons]
      · have hN1 : s.logBuffer.length + 1 = N := by omega
        have hrest : rest = [] := by
          have := hle
          simp only [List.length_cons] at this
          have hlen : rest.length = 0 := by omega
          exact List.length_eq_zero.mp hlen
        subst hrest
        rw [log_buffered_flush ser env ts lvl msg ctx s p d hfl hinit hp hd
          hlvl (by omega) (by omega)]
        have hflush := flushBuffer_nonempty
          { s with logBuffer := s.logBuffer ++
              [fmtEntry ser s.moduleName ts lvl msg ctx] } p d hp hd
          (by simp)
        constructor
        · intro habs
          simp only [List.length_cons] at habs
          omega
        · intro _
          refine ⟨?_, ?_⟩
          · rw [runLogs]
            simp only [List.append_nil]
            exact hflush.1.trans (by simp [fmtOf])
          · rw [runLogs]
            exact hflush.2.1

/-- Claim C3: on an initialized logger with `bufferSize = N > 0`, fewer
than N threshold-passing messages append nothing and accumulate in the
buffer; the N-th message performs exactly one append whose content joins
all N formatted lines and empties the buffer; `flush` on a nonempty buffer
of fewer than N entries performs exactly one append with those lines and
empties the buffer; `flush` on an empty buffer does nothing; and with
`bufferSize = 0` every threshold-passing message performs exactly one
immediate append of its own line. -/
theorem c3_buffer_semantics :
    (∀ (ser : CtxVal → String) (env : PathService) (lvl : LogLevel)
       (N : Nat) (calls : List (String × String × Option CtxVal))
       (s : LoggerState) (p d : String),
       s.opts.fileLogging = true → s.fileLoggingInitialized = true →
       s.logFilePath = some p → s.logsDir = some d →
       s.opts.level.toNat ≤ lvl.toNat → s.opts.bufferSize = N →
       s.logBuffer = [] → calls.length < N →
       appendsOf (runLogs ser env lvl calls s).2 = [] ∧
       (runLogs ser env lvl calls s).1.logBuffer =
         calls.map (fmtOf ser s.moduleName lvl)) ∧
    (∀ (ser : CtxVal → String) (env : PathService) (lvl : LogLevel)
       (N : Nat) (calls : List (String × String × Option CtxVal))
       (s : LoggerState) (p d : String),
       s.opts.fileLogging = true → s.fileLoggingInitialized = true →
       s.logFilePath = some p → s.logsDir = some d →
       s.opts.level.toNat ≤ lvl.toNat → s.opts.bufferSize = N →
       s.logBuffer = [] → 0 < N → calls.length = N →
       appendsOf (runLogs ser env lvl calls s).2 =
         [(p, String.join (calls.map (fmtOf ser s.moduleName lvl)))] ∧
       (runLogs ser env lvl calls s).1.logBuffer = []) ∧
    (∀ (s : LoggerState) (p d : String),
       s.logFilePath = some p → s.logsDir = some d →
       s.logBuffer ≠ [] → s.logBuffer.length < s.opts.bufferSize →
       appendsOf (flush s).2 = [(p, String.join s.logBuffer)] ∧
       (flush s).1.logBuffer = []) ∧
    (∀ s : LoggerState, s.logBuffer = [] → flush s = (s, [])) ∧
    (∀ (ser : CtxVal → String) (env : PathService) (ts : String)
       (lvl : LogLevel) (msg : String) (ctx : Option CtxVal)
       (s : LoggerState) (p d : String),
       s.opts.fileLogging = true → s.fileLoggingInitialized = true →
       s.logFilePath = some p → s.logsDir = some d →
       s.opts.level.toNat ≤ lvl.toNat → s.opts.bufferSize = 0 →
       appendsOf (log ser env ts lvl msg ctx s).2 =
         [(p, fmtEntry ser s.moduleName ts lvl msg ctx)]) := by
  refine ⟨?_, ?_, ?_, ?_, ?_⟩
  · intro ser env lvl N calls s p d hfl hinit hp hd hlvl hN hemp hlen
    have hN0 : 0 < N := by omega
    have h := (runLogs_buffered_spec ser env lvl N calls s p d hfl hinit hp
      hd hlvl hN (by rw [hemp]; simpa using hN0)
      (by rw [hemp]; simpa using Nat.le_of_lt hlen)).1
      (by rw [hemp]; simpa using hlen)
    refine ⟨h.1, ?_⟩
    rw [h.2, hemp]
    simp
  · intro ser env lvl N calls s p d hfl hinit hp hd hlvl hN hemp hN0 hlen
    have h := (runLogs_buffered_spec ser env lvl N calls s p d hfl hinit hp
      hd hlvl hN (by rw [hemp]; simpa using hN0)
      (by rw [hemp]; simp [hlen])).2
      (by rw [hemp]; simp [hlen])
    refine ⟨?_, h.2⟩
    rw [h.1, hemp]
    simp
  · intro s p d hp hd hne hlt
    have h := flushBuffer_nonempty s p d hp hd hne
    exact ⟨h.1, h.2.1⟩
  · intro s hemp
    unfold flush flushBuffer
    rw [if_pos (by simp [hemp])]
  · intro ser env ts lvl msg ctx s p d hfl hinit hp hd hlvl hbuf
    rw [log_unbuffered ser env ts lvl msg ctx s p d hfl hinit hp hd hlvl
      hbuf]
    rw [writeToFile_ready (fmtEntry ser s.moduleName ts lvl msg ctx) s p d
      hp hd]
    split
    · rfl
    · rfl

/-- Witness for C3 at concrete inputs: `bufferSize = 2`, one message then
two messages, a flush of a singleton buffer, a flush of an empty buffer,
and an unbuffered write. -/
theorem c3_witness :
    (appendsOf (runLogs serNull (Except.ok "/ud") .INFO [("t1", "m1", none)]
        (readyState (optsBuf 2))).2 = [] ∧
     (runLogs serNull (Except.ok "/ud") .INFO [("t1", "m1", none)]
        (readyState (optsBuf 2))).1.logBuffer =
       List.map (fmtOf serNull "mod" .INFO) [("t1", "m1", none)]) ∧
    (appendsOf (runLogs serNull (Except.ok "/ud") .INFO
        [("t1", "m1", none), ("t2", "m2", none)]
        (readyState (optsBuf 2))).2 =
       [("/ud/logs/app.log", String.join (List.map (fmtOf serNull "mod"
         .INFO) [("t1", "m1", none), ("t2", "m2", none)]))] ∧
     (runLogs serNull (Except.ok "/ud") .INFO
        [("t1", "m1", none), ("t2", "m2", none)]
        (readyState (optsBuf 2))).1.logBuffer = []) ∧
    (appendsOf (flush oneBuffered).2 =
       [("/ud/logs/app.log", String.join ["e1"])] ∧
     (flush oneBuffered).1.logBuffer = []) ∧
    (flush (readyState (optsBuf 2)) = (readyState (optsBuf 2), [])) ∧
    (appendsOf (log serNull (Except.ok "/ud") "t" .INFO "m" none
        (readyState (optsBuf 0))).2 =
      [("/ud/logs/app.log", fmtEntry serNull "mod" "t" .INFO "m" none)]) :=
  ⟨c3_buffer_semantics.1 serNull (Except.ok "/ud") .INFO 2
      [("t1", "m1", none)] (readyState (optsBuf 2))
      "/ud/logs/app.log" "/ud/logs" rfl rfl rfl rfl
      (by decide) rfl rfl (by decide),
   c3_buffer_semantics.2.1 serNull (Except.ok "/ud") .INFO 2
      [("t1", "m1", none), ("t2", "m2", none)] (readyState (optsBuf 2))
      "/ud/logs/app.log" "/ud/logs" rfl rfl rfl rfl
      (by decide) rfl rfl (by decide) rfl,
   c3_buffer_semantics.2.2.1 oneBuffered
      "/ud/logs/app.log" "/ud/logs" rfl rfl (by decide) (by decide),
   c3_buffer_semantics.2.2.2.1 (readyState (optsBuf 2)) rfl,
   c3_buffer_semantics.2.2.2.2 serNull (Except.ok "/ud") "t" .INFO "m" none
      (readyState (optsBuf 0))
      "/ud/logs/app.log" "/ud/logs" rfl rfl rfl rfl (by decide) rfl⟩

/-! ### C1 and C2: the rotation algorithm -/

theorem fsRename_at_dst (fs : FS) (src dst : LogName) :
    fsRename fs src dst dst = fs src := by
  simp [fsRename]

theorem fsRename_at_src (fs : FS) (src dst : LogName) (h : ¬ src = dst) :
    fsRename fs src dst src = none := by
  simp [fsRename, h]

theorem fsRename_other (fs : FS) (src dst n : LogName)
    (h1 : ¬ n = dst) (h2 : ¬ n = src) : fsRename fs src dst n = fs n := by
  simp [fsRename, h1, h2]

/-- One unfolding step of the backup-shift loop. -/
theorem backupShift_succ (mb i : Nat) (fs : FS) :
    backupShift mb (i + 1) fs =
      backupShift mb i
        (if (fs (.bak (i + 1))).isSome then
          (if i + 1 = mb - 1 then fsUnlink fs (.bak (i + 1))
           else fsRename fs (.bak (i + 1)) (.bak (i + 2)))
         else fs) := rfl

/-- Full characterization of the backup-shift loop when backups
`1 .. k` all exist: indices `2 .. k` receive the previous chain entry,
index 1 is vacated, the rename target `k + 1` (when it is a retained slot)
receives old backup `k`, and every other name — the live file included —
is untouched. -/
theorem backupShift_spec (mb : Nat) :
    ∀ (k : Nat) (fs : FS), k ≤ mb - 1 →
      (∀ j, 1 ≤ j → j ≤ k → (fs (.bak j)).isSome = true) →
      (∀ j, backupShift mb k fs (.bak j) =
        if 1 ≤ j ∧ j ≤ k then
          (if j = 1 then none else fs (.bak (j - 1)))
        else if j = k + 1 ∧ k + 1 ≤ mb - 1 ∧ 1 ≤ k then fs (.bak k)
        else fs (.bak j)) ∧
      backupShift mb k fs .live = fs .live := by
  intro k
  induction k with
  | zero =>
      intro fs hk hex
      constructor
      · intro j
        rw [if_neg (by omega : ¬ (1 ≤ j ∧ j ≤ 0)),
          if_neg (by omega : ¬ (j = 0 + 1 ∧ 0 + 1 ≤ mb - 1 ∧ 1 ≤ 0))]
        rfl
      · rfl
  | succ i ih =>
      intro fs hk hex
      have hexi : (fs (.bak (i + 1))).isSome = true :=
        hex (i + 1) (by omega) (by omega)
      rw [backupShift_succ, if_pos hexi]
      set fs1 := if i + 1 = mb - 1 then fsUnlink fs (.bak (i + 1))
        else fsRename fs (.bak (i + 1)) (.bak (i + 2)) with hfs1
      have f1 : ∀ j, j ≠ i + 1 → j ≠ i + 2 → fs1 (.bak j) = fs (.bak j) := by
        intro j h1 h2
        rw [hfs1]
        split
        · simp [fsUnlink, h1]
        · simp [fsRename, h1, h2]
      have f2 : fs1 (.bak (i + 1)) = none := by
        rw [hfs1]
        split
        · simp [fsUnlink]
        · simp [fsRename, (by omega : ¬ (i + 1 = i + 2))]
      have f3a : ¬ (i + 1 = mb - 1) →
          fs1 (.bak (i + 2)) = fs (.bak (i + 1)) := by
        intro hm
        rw [hfs1, if_neg hm]
        simp [fsRename]
      have f3b : i + 1 = mb - 1 →
          fs1 (.bak (i + 2)) = fs (.bak (i + 2)) := by
        intro hm
        rw [hfs1, if_pos hm]
        simp [fsUnlink, (by omega : ¬ (i + 2 = i + 1))]
      have f4 : fs1 .live = fs .live := by
        rw [hfs1]
        split
        · simp [fsUnlink]
        · simp [fsRename]
      have hex1 : ∀ j, 1 ≤ j → j ≤ i → (fs1 (.bak j)).isSome = true := by
        intro j h1 h2
        rw [f1 j (by omega) (by omega)]
        exact hex j h1 (by omega)
      obtain ⟨ihF, ihL⟩ := ih fs1 (by omega) hex1
      constructor
      · intro j
        rw [ihF j]
        by_cases hA : 1 ≤ j ∧ j ≤ i
        · rw [if_pos hA, if_pos (by omega : 1 ≤ j ∧ j ≤ i + 1)]
          by_cases hj1 : j = 1
          · rw [if_pos hj1, if_pos hj1]
          · rw [if_neg hj1, if_neg hj1, f1 (j - 1) (by omega) (by omega)]
        · by_cases hB : j = i + 1
          · subst hB
            rw [if_neg hA,
              if_pos (by omega : 1 ≤ i + 1 ∧ i + 1 ≤ i + 1)]
            by_cases hi0 : i = 0
            · rw [if_neg (by omega :
                  ¬ (i + 1 = i + 1 ∧ i + 1 ≤ mb - 1 ∧ 1 ≤ i)),
                if_pos (by omega : i + 1 = 1)]
              exact f2
            · rw [if_pos (by omega :
                  i + 1 = i + 1 ∧ i + 1 ≤ mb - 1 ∧ 1 ≤ i),
                if_neg (by omega : ¬ (i + 1 = 1))]
              exact f1 i (by omega) (by omega)
          · by_cases hC : j = i + 2
            · subst hC
              rw [if_neg (by omega : ¬ (1 ≤ i + 2 ∧ i + 2 ≤ i)),
                if_neg (by omega :
                  ¬ (i + 2 = i + 1 ∧ i + 1 ≤ mb - 1 ∧ 1 ≤ i)),
                if_neg (by omega : ¬ (1 ≤ i + 2 ∧ i + 2 ≤ i + 1))]
              by_cases hm : i + 1 = mb - 1
              · rw [if_neg (by omega :
                    ¬ (i + 2 = i + 1 + 1 ∧ i + 1 + 1 ≤ mb - 1 ∧
                       1 ≤ i + 1))]
                exact f3b hm
              · rw [if_pos (by omega :
                    i + 2 = i + 1 + 1 ∧ i + 1 + 1 ≤ mb - 1 ∧ 1 ≤ i + 1)]
                exact f3a hm
            · rw [if_neg hA,
                if_neg (by omega :
                  ¬ (j = i + 1 ∧ i + 1 ≤ mb - 1 ∧ 1 ≤ i)),
                if_neg (by omega : ¬ (1 ≤ j ∧ j ≤ i + 1)),
                if_neg (by omega :
                  ¬ (j = i + 1 + 1 ∧ i + 1 + 1 ≤ mb - 1 ∧ 1 ≤ i + 1))]
              exact f1 j hB hC
      · rw [ihL]
        exact f4

/-- The shift loop never touches backup indices at or beyond `maxBackups`
(no existence hypotheses needed). -/
theorem backupShift_high (mb : Nat) :
    ∀ (k : Nat) (fs : FS) (j : Nat), k ≤ mb - 1 → mb ≤ j →
      backupShift mb k fs (.bak j) = fs (.bak j) := by
  intro k
  induction k with
  | zero => intro fs j hk hj; rfl
  | succ i ih =>
      intro fs j hk hj
      rw [backupShift_succ]
      by_cases hexi : (fs (.bak (i + 1))).isSome = true
      · rw [if_pos hexi]
        split
        · rw [ih _ j (by omega) hj]
          simp only [fsUnlink]
          rw [if_neg (by simp; omega : ¬ (LogName.bak j = .bak (i + 1)))]
        · rw [ih _ j (by omega) hj]
          simp only [fsRename]
          rw [if_neg (by simp; omega : ¬ (LogName.bak j = .bak (i + 2))),
            if_neg (by simp; omega : ¬ (LogName.bak j = .bak (i + 1)))]
      · rw [if_neg hexi]
        exact ih fs j (by omega) hj

/-- Claim C1 (amended): with `maxBackups ≥ 2`, the live file at or above
`maxFileSize`, and backups `1 .. maxBackups - 1` present, rotation moves
the old live contents to backup 1, keeps backups `1 .. maxBackups - 1`
present with no gap, leaves the file at index `maxBackups` untouched
(in particular it is NOT deleted when it existed), and vacates the live
file. -/
theorem c1_rotation (opts : LoggerOptions) (fs : FS) (c : String)
    (h2 : 2 ≤ opts.maxBackups) (hl : fs .live = some c)
    (hsz : opts.maxFileSize ≤ c.length)
    (hb : ∀ j, 1 ≤ j → j ≤ opts.maxBackups - 1 →
      (fs (.bak j)).isSome = true) :
    rotateIfNeeded opts fs (.bak 1) = some c ∧
    (∀ j, 1 ≤ j → j ≤ opts.maxBackups - 1 →
      (rotateIfNeeded opts fs (.bak j)).isSome = true) ∧
    rotateIfNeeded opts fs (.bak opts.maxBackups) =
      fs (.bak opts.maxBackups) ∧
    rotateIfNeeded opts fs .live = none := by
  have hrot : rotateIfNeeded opts fs =
      fsRename (backupShift opts.maxBackups (opts.maxBackups - 1) fs)
        .live (.bak 1) := by
    unfold rotateIfNeeded
    rw [hl]
    show (if c.length < opts.maxFileSize then fs
      else fsRename (backupShift opts.maxBackups (opts.maxBackups - 1) fs)
        .live (.bak 1)) =
      fsRename (backupShift opts.maxBackups (opts.maxBackups - 1) fs)
        .live (.bak 1)
    rw [if_neg (by omega : ¬ (c.length < opts.maxFileSize))]
  obtain ⟨hF, hL⟩ := backupShift_spec opts.maxBackups
    (opts.maxBackups - 1) fs (Nat.le_refl _) hb
  rw [hrot]
  refine ⟨?_, ?_, ?_, ?_⟩
  · rw [fsRename_at_dst, hL, hl]
  · intro j h1 hj
    by_cases hj1 : j = 1
    · subst hj1
      rw [fsRename_at_dst, hL, hl]
      rfl
    · rw [fsRename_other _ _ _ _ (by simp [hj1]) (by simp),
        hF j, if_pos (by omega : 1 ≤ j ∧ j ≤ opts.maxBackups - 1),
        if_neg hj1]
      exact hb (j - 1) (by omega) (by omega)
  · rw [fsRename_other _ _ _ _ (by simp; omega) (by simp),
      hF opts.maxBackups,
      if_neg (by omega :
        ¬ (1 ≤ opts.maxBackups ∧ opts.maxBackups ≤ opts.maxBackups - 1)),
      if_neg (by omega :
        ¬ (opts.maxBackups = opts.maxBackups - 1 + 1 ∧
           opts.maxBackups - 1 + 1 ≤ opts.maxBackups - 1 ∧
           1 ≤ opts.maxBackups - 1))]
  · rw [fsRename_at_src _ _ _ (by simp)]

/-- Witness for C1 (amended) at a concrete input: `maxBackups = 3`, a full
chain `app.log.1`, `app.log.2`, a leftover `app.log.3`, and an oversized
live file. -/
theorem c1_witness :
    rotateIfNeeded smallOpts3 fsC13 (.bak 1) = some "x" ∧
    (∀ j, 1 ≤ j → j ≤ 2 →
      (rotateIfNeeded smallOpts3 fsC13 (.bak j)).isSome = true) ∧
    rotateIfNeeded smallOpts3 fsC13 (.bak 3) = fsC13 (.bak 3) ∧
    rotateIfNeeded smallOpts3 fsC13 .live = none :=
  c1_rotation smallOpts3 fsC13 "x" (by decide) rfl (by decide)
    (by
      intro j h1 hj
      have hj2 : j ≤ 2 := hj
      have hor : j = 1 ∨ j = 2 := by omega
      rcases hor with h | h <;> subst h <;> rfl)

/-- Counterexample to C1 as stated: with `maxBackups = 2`, an oversized
live file, and backups 1 and 2 both present, rotation leaves `app.log.2`
(the backup at index `maxBackups`) in place instead of deleting it. -/
theorem c1_counterexample :
    fsC1small .live = some "x" ∧
    ("x").length ≥ smallOpts.maxFileSize ∧
    2 ≤ smallOpts.maxBackups ∧
    (fsC1small (.bak 1)).isSome = true ∧
    (fsC1small (.bak smallOpts.maxBackups)).isSome = true ∧
    rotateIfNeeded smallOpts fsC1small (.bak smallOpts.maxBackups) =
      some "b" := by
  refine ⟨rfl, by decide, by decide, rfl, ?_, ?_⟩
  · decide
  · decide

/-- Claim C2 (as refuted / the code's actual behavior): rotation never
reads, writes, or deletes the backup at index `maxBackups` — so starting
from any state where `app.log.<maxBackups>` is absent it stays absent
forever, and the retained chain is `app.log.1 .. app.log.(maxBackups-1)`,
one fewer than the documented count. -/
theorem c2_top_backup_untouched (opts : LoggerOptions) (fs : FS)
    (h2 : 2 ≤ opts.maxBackups) :
    rotateIfNeeded opts fs (.bak opts.maxBackups) =
      fs (.bak opts.maxBackups) := by
  unfold rotateIfNeeded
  cases hl : fs .live with
  | none => rfl
  | some c =>
      show (if c.length < opts.maxFileSize then fs
        else fsRename (backupShift opts.maxBackups (opts.maxBackups - 1) fs)
          .live (.bak 1)) (.bak opts.maxBackups) =
        fs (.bak opts.maxBackups)
      split
      · rfl
      · rw [fsRename_other _ _ _ _ (by simp; omega) (by simp)]
        exact backupShift_high opts.maxBackups (opts.maxBackups - 1) fs
          opts.maxBackups (Nat.le_refl _) (Nat.le_refl _)

/-- Witness for C2 at a concrete input: with `maxBackups = 2` and no
`app.log.2`, a rotation of an oversized live file still leaves `app.log.2`
absent. -/
theorem c2_witness :
    rotateIfNeeded smallOpts fsNoTop (.bak smallOpts.maxBackups) =
      fsNoTop (.bak smallOpts.maxBackups) ∧
    rotateIfNeeded smallOpts fsNoTop (.bak 2) = none :=
  ⟨c2_top_backup_untouched smallOpts fsNoTop (by decide),
   (c2_top_backup_untouched smallOpts fsNoTop (by decide)).trans rfl⟩

/-! ### C7: the serializer terminates and handles cycles and errors -/

theorem lookupNode_mem (a : Nat) :
    ∀ (h : List (Nat × JNode)) (node : JNode),
      lookupNode a h = some node → a ∈ heapAddrs h := by
  intro h
  induction h with
  | nil => intro node hl; simp [lookupNode] at hl
  | cons bn rest ih =>
      intro node hl
      obtain ⟨b, n⟩ := bn
      by_cases hab : a = b
      · subst hab
        simp [heapAddrs]
      · rw [lookupNode, if_neg hab] at hl
        have := ih node hl
        simp [heapAddrs] at this ⊢
        exact Or.inr this

theorem unseenCount_dec (h : List (Nat × JNode)) (a : Nat)
    (seen : List Nat) (hmem : a ∈ heapAddrs h) (hnot : a ∉ seen) :
    unseenCount h (a :: seen) < unseenCount h seen := by
  unfold unseenCount
  apply Finset.card_lt_card
  rw [List.toFinset_cons]
  refine (Finset.ssubset_iff_of_subset
    (Finset.sdiff_subset_sdiff (Finset.Subset.refl _)
      (Finset.subset_insert a seen.toFinset))).mpr ?_
  refine ⟨a, ?_, ?_⟩
  · rw [Finset.mem_sdiff]
    exact ⟨hmem, fun hc => hnot (List.mem_toFinset.mp hc)⟩
  · rw [Finset.mem_sdiff]
    intro hc
    exact hc.2 (Finset.mem_insert_self a seen.toFinset)

theorem unseenCount_anti (h : List (Nat × JNode)) (s1 s2 : List Nat)
    (hsub : ∀ b, b ∈ s1 → b ∈ s2) :
    unseenCount h s2 ≤ unseenCount h s1 := by
  unfold unseenCount
  apply Finset.card_le_card
  apply Finset.sdiff_subset_sdiff (Finset.Subset.refl _)
  intro b hb
  exact List.mem_toFinset.mpr (hsub b (List.mem_toFinset.mp hb))

/-- The `seen` set only grows along a successful serializer run. -/
theorem serStep_seen_mono (h : List (Nat × JNode)) :
    ∀ (fuel : Nat) (x : JVal ⊕ List (String × JVal)) (seen : List Nat)
      (t : List JTok) (sn : List Nat),
      serStep h fuel seen x = some (t, sn) → ∀ b, b ∈ seen → b ∈ sn := by
  intro fuel
  induction fuel with
  | zero =>
      intro x seen t sn hs b hb
      cases x with
      | inl v =>
          cases v with
          | jnull => simp [serStep] at hs; rw [← hs.2]; exact hb
          | jbool bb => simp [serStep] at hs; rw [← hs.2]; exact hb
          | jnum n => simp [serStep] at hs; rw [← hs.2]; exact hb
          | jstr s => simp [serStep] at hs; rw [← hs.2]; exact hb
          | jref a =>
              by_cases hmem : a ∈ seen
              · simp [serStep, hmem] at hs
                rw [← hs.2]; exact hb
              · simp [serStep, hmem] at hs
      | inr l =>
          cases l with
          | nil => simp [serStep] at hs; rw [← hs.2]; exact hb
          | cons kv rest => simp [serStep] at hs
  | succ g ih =>
      intro x seen t sn hs b hb
      cases x with
      | inl v =>
          cases v with
          | jnull => simp [serStep] at hs; rw [← hs.2]; exact hb
          | jbool bb => simp [serStep] at hs; rw [← hs.2]; exact hb
          | jnum n => simp [serStep] at hs; rw [← hs.2]; exact hb
          | jstr s => simp [serStep] at hs; rw [← hs.2]; exact hb
          | jref a =>
              by_cases hmem : a ∈ seen
              · simp [serStep, hmem] at hs
                rw [← hs.2]; exact hb
              · cases hlook : lookupNode a h with
                | none =>
                    simp [serStep, hmem, hlook] at hs
                    rw [← hs.2]; exact hb
                | some node =>
                    cases node with
                    | jerr n m st =>
                        simp [serStep, hmem, hlook] at hs
                        rw [← hs.2]
                        exact List.mem_cons_of_mem a hb
                    | jobj fields =>
                        cases hrec : serStep h g (a :: seen) (.inr fields)
                          with
                        | none => simp [serStep, hmem, hlook, hrec] at hs
                        | some r =>
                            obtain ⟨toks, seen2⟩ := r
                            simp [serStep, hmem, hlook, hrec] at hs
                            rw [← hs.2]
                            exact ih (.inr fields) (a :: seen) toks seen2
                              hrec b (List.mem_cons_of_mem a hb)
      | inr l =>
          cases l with
          | nil => simp [serStep] at hs; rw [← hs.2]; exact hb
          | cons kv rest =>
              obtain ⟨k, v⟩ := kv
              cases hv : serStep h g seen (.inl v) with
              | none => simp [serStep, hv] at hs
              | some rv =>
                  obtain ⟨tv, seen1⟩ := rv
                  cases hr : serStep h g seen1 (.inr rest) with
                  | none => simp [serStep, hv, hr] at hs
                  | some rr =>
                      obtain ⟨tr, seen2⟩ := rr
                      simp [serStep, hv, hr] at hs
                      rw [← hs.2]
                      exact ih (.inr rest) seen1 tr seen2 hr b
                        (ih (.inl v) seen tv seen1 hv b hb)

/-- More fuel never changes a successful serializer run. -/
theorem serStep_fuel_mono (h : List (Nat × JNode)) :
    ∀ (fuel : Nat) (x : JVal ⊕ List (String × JVal)) (seen : List Nat)
      (r : List JTok × List Nat),
      serStep h fuel seen x = some r → serStep h (fuel + 1) seen x = some r
    := by
  intro fuel
  induction fuel with
  | zero =>
      intro x seen r hs
      cases x with
      | inl v =>
          cases v with
          | jnull => exact hs
          | jbool bb => exact hs
          | jnum n => exact hs
          | jstr s => exact hs
          | jref a =>
              by_cases hmem : a ∈ seen
              · simp [serStep, hmem] at hs ⊢
                exact hs
              · simp [serStep, hmem] at hs
      | inr l =>
          cases l with
          | nil => exact hs
          | cons kv rest => simp [serStep] at hs
  | succ g ih =>
      intro x seen r hs
      cases x with
      | inl v =>
          cases v with
          | jnull => exact hs
          | jbool bb => exact hs
          | jnum n => exact hs
          | jstr s => exact hs
          | jref a =>
              by_cases hmem : a ∈ seen
              · simp [serStep, hmem] at hs ⊢
                exact hs
              · cases hlook : lookupNode a h with
                | none =>
                    simp [serStep, hmem, hlook] at hs ⊢
                    exact hs
                | some node =>
                    cases node with
                    | jerr n m st =>
                        simp [serStep, hmem, hlook] at hs ⊢
                        exact hs
                    | jobj fields =>
                        cases hrec : serStep h g (a :: seen) (.inr fields)
                          with
                        | none => simp [serStep, hmem, hlook, hrec] at hs
                        | some rr =>
                            have hrec2 := ih (.inr fields) (a :: seen) rr
                              hrec
                            simp [serStep, hmem, hlook, hrec] at hs
                            simp [serStep, hmem, hlook, hrec2]
                            exact hs
      | inr l =>
          cases l with
          | nil => exact hs
          | cons kv rest =>
              obtain ⟨k, v⟩ := kv
              cases hv : serStep h g seen (.inl v) with
              | none => simp [serStep, hv] at hs
              | some rv =>
                  obtain ⟨tv, seen1⟩ := rv
                  cases hr : serStep h g seen1 (.inr rest) with
                  | none => simp [serStep, hv, hr] at hs
                  | some rr =>
                      obtain ⟨tr, seen2⟩ := rr
                      have hv2 := ih (.inl v) seen (tv, seen1) hv
                      have hr2 := ih (.inr rest) seen1 (tr, seen2) hr
                      simp [serStep, hv, hr] at hs
                      simp [serStep, hv2, hr2]
                      exact hs

/-- Fuel monotonicity, `≤` form. -/
theorem serStep_mono_le (h : List (Nat × JNode)) (f g : Nat) (hfg : f ≤ g)
    (x : JVal ⊕ List (String × JVal)) (seen : List Nat)
    (r : List JTok × List Nat) (hs : serStep h f seen x = some r) :
    serStep h g seen x = some r := by
  induction g, hfg using Nat.le_induction with
  | base => exact hs
  | succ n hn ih => exact serStep_fuel_mono h n x seen r ih

/-- Termination of the serializer: for any budget bound `u` on the number
of unvisited heap addresses, some fuel makes every run succeed — on a
value and on a field list alike. -/
theorem serStep_total (h : List (Nat × JNode)) :
    ∀ (u : Nat) (seen : List Nat), unseenCount h seen ≤ u →
      (∀ v : JVal, ∃ fuel,
        (serStep h fuel seen (.inl v)).isSome = true) ∧
      (∀ l : List (String × JVal), ∃ fuel,
        (serStep h fuel seen (.inr l)).isSome = true) := by
  intro u
  induction u using Nat.strong_induction_on with
  | _ u ih =>
    have hval : ∀ (seen : List Nat), unseenCount h seen ≤ u →
        ∀ v : JVal, ∃ fuel,
          (serStep h fuel seen (.inl v)).isSome = true := by
      intro seen hu v
      cases v with
      | jnull => exact ⟨1, by simp [serStep]⟩
      | jbool bb => exact ⟨1, by simp [serStep]⟩
      | jnum n => exact ⟨1, by simp [serStep]⟩
      | jstr s => exact ⟨1, by simp [serStep]⟩
      | jref a =>
          by_cases hmem : a ∈ seen
          · exact ⟨1, by simp [serStep, hmem]⟩
          · cases hlook : lookupNode a h with
            | none => exact ⟨1, by simp [serStep, hmem, hlook]⟩
            | some node =>
                cases node with
                | jerr n m st => exact ⟨1, by simp [serStep, hmem, hlook]⟩
                | jobj fields =>
                    have haddr : a ∈ heapAddrs h :=
                      lookupNode_mem a h _ hlook
                    have hdec : unseenCount h (a :: seen) <
                        unseenCount h seen :=
                      unseenCount_dec h a seen haddr hmem
                    obtain ⟨fuel, hf⟩ :=
                      (ih (unseenCount h (a :: seen)) (by omega)
                        (a :: seen) (Nat.le_refl _)).2 fields
                    refine ⟨fuel + 1, ?_⟩
                    cases hsome : serStep h fuel (a :: seen) (.inr fields)
                      with
                    | none => rw [hsome] at hf; simp at hf
                    | some r => simp [serStep, hmem, hlook, hsome]
    have hlist : ∀ (l : List (String × JVal)) (seen : List Nat),
        unseenCount h seen ≤ u →
        ∃ fuel, (serStep h fuel seen (.inr l)).isSome = true := by
      intro l
      induction l with
      | nil => intro seen hu; exact ⟨1, by simp [serStep]⟩
      | cons kv rest ihl =>
          intro seen hu
          obtain ⟨k, v⟩ := kv
          obtain ⟨f1, h1⟩ := hval seen hu v
          cases hv : serStep h f1 seen (.inl v) with
          | none => rw [hv] at h1; simp at h1
          | some rv =>
              obtain ⟨tv, seen1⟩ := rv
              have hsub : unseenCount h seen1 ≤ u := by
                have hmono := serStep_seen_mono h f1 (.inl v) seen tv seen1
                  hv
                have := unseenCount_anti h seen seen1 hmono
                omega
              obtain ⟨f2, h2⟩ := ihl seen1 hsub
              cases hr : serStep h f2 seen1 (.inr rest) with
              | none => rw [hr] at h2; simp at h2
              | some rr =>
                  refine ⟨max f1 f2 + 1, ?_⟩
                  have hv2 := serStep_mono_le h f1 (max f1 f2)
                    (Nat.le_max_left _ _) _ _ _ hv
                  have hr2 := serStep_mono_le h f2 (max f1 f2)
                    (Nat.le_max_right _ _) _ _ _ hr
                  simp [serStep, hv2, hr2]
    exact fun seen hu => ⟨hval seen hu, fun l => hlist l seen hu⟩

/-- A reference to an already-seen address serializes to the circular
placeholder at any fuel. -/
theorem serStep_ref_seen (h : List (Nat × JNode)) (fuel : Nat)
    (seen : List Nat) (a : Nat) (hmem : a ∈ seen) :
    serStep h fuel seen (.inl (.jref a)) = some ([.circular], seen) := by
  cases fuel <;> simp [serStep, hmem]

/-- If a field list contains a reference to an already-seen address, any
successful run over it emits the circular placeholder. -/
theorem circular_mem_fields (h : List (Nat × JNode)) :
    ∀ (fs : List (String × JVal)) (g : Nat) (seen : List Nat)
      (t : List JTok) (sn : List Nat) (k : String) (b : Nat),
      serStep h g seen (.inr fs) = some (t, sn) →
      (k, JVal.jref b) ∈ fs → b ∈ seen → JTok.circular ∈ t := by
  intro fs
  induction fs with
  | nil =>
      intro g seen t sn k b hs hmem hbseen
      simp at hmem
  | cons kv rest ih =>
      intro g seen t sn k b hs hmem hbseen
      obtain ⟨k0, v0⟩ := kv
      cases g with
      | zero => simp [serStep] at hs
      | succ g =>
          cases hv : serStep h g seen (.inl v0) with
          | none => simp [serStep, hv] at hs
          | some rv =>
              obtain ⟨tv, seen1⟩ := rv
              cases hr : serStep h g seen1 (.inr rest) with
              | none => simp [serStep, hv, hr] at hs
              | some rr =>
                  obtain ⟨tr, seen2⟩ := rr
                  simp [serStep, hv, hr] at hs
                  rcases List.mem_cons.mp hmem with hhead | htail
                  · have hv0 : v0 = JVal.jref b := by
                      have := (Prod.mk.injEq _ _ _ _).mp hhead.symm
                      exact this.2
                    rw [hv0, serStep_ref_seen h g seen b hbseen] at hv
                    simp at hv
                    rw [← hs.1, ← hv.1]
                    simp
                  · have hb1 : b ∈ seen1 :=
                      serStep_seen_mono h g (.inl v0) seen tv seen1 hv b
                        hbseen
                    have hcirc := ih g seen1 tr seen2 k b hr htail hb1
                    rw [← hs.1]
                    simp [hcirc]

/-- Claim C7: the safe serializer always terminates — some fuel makes any
run succeed, reference cycles included; any successful run on an object
holding a reference back to itself emits the circular placeholder token;
and a reference to an `Error` node serializes to its expanded
`{name, message, stack}` form rather than an empty object. -/
theorem c7_safeStringify :
    (∀ (h : List (Nat × JNode)) (seen : List Nat) (v : JVal),
      ∃ fuel, (serStep h fuel seen (.inl v)).isSome = true) ∧
    (∀ (h : List (Nat × JNode)) (fuel : Nat) (a : Nat) (t : List JTok)
       (sn : List Nat),
      serStep h fuel [] (.inl (.jref a)) = some (t, sn) →
      hasSelfRef h a → JTok.circular ∈ t) ∧
    (∀ (h : List (Nat × JNode)) (g : Nat) (a : Nat) (n m st : String),
      lookupNode a h = some (.jerr n m st) →
      serStep h (g + 1) [] (.inl (.jref a)) =
        some ([JTok.errObj n m st], [a])) := by
  refine ⟨?_, ?_, ?_⟩
  · intro h seen v
    exact (serStep_total h (unseenCount h seen) seen (Nat.le_refl _)).1 v
  · intro h fuel a t sn hs hself
    obtain ⟨fields, k, hlook, hmem⟩ := hself
    cases fuel with
    | zero => simp [serStep] at hs
    | succ g =>
        have hnot : a ∉ ([] : List Nat) := by simp
        cases hrec : serStep h g [a] (.inr fields) with
        | none => simp [serStep, hnot, hlook, hrec] at hs
        | some r =>
            obtain ⟨toks, sn2⟩ := r
            simp [serStep, hnot, hlook, hrec] at hs
            have hcirc := circular_mem_fields h fields g [a] toks sn2 k a
              hrec hmem (by simp)
            rw [← hs.1]
            simp [hcirc]
  · intro h g a n m st hlook
    have hnot : a ∉ ([] : List Nat) := by simp
    simp [serStep, hnot, hlook]

/-- Witness for C7 at a concrete input: serializing the self-referencing
object at address 0 of `exHeap` emits the circular token, and the `Error`
node at address 1 expands to its three fields. -/
theorem c7_witness :
    JTok.circular ∈ [JTok.lit "\x7b", JTok.keyTok "self", JTok.circular,
      JTok.lit "\x7d"] ∧
    serStep exHeap 1 [] (.inl (.jref 1)) =
      some ([JTok.errObj "Error" "boom" "trace"], [1]) :=
  ⟨c7_safeStringify.2.1 exHeap 2 0
      [JTok.lit "\x7b", JTok.keyTok "self", JTok.circular, JTok.lit "\x7d"]
      [0] (by decide)
      ⟨[("self", JVal.jref 0)], "self", rfl, by simp⟩,
   c7_safeStringify.2.2 exHeap 0 1 "Error" "boom" "trace" rfl⟩

end Openwork
